import Mathlib

/-
Verification of the tabbed-admin configuration adapter
(`tabbed_admin/admin.py`, class `TabbedModelAdmin`).

The adapter is a thin layer over dynamically typed (Python) values, so the
embedding starts from a small universe `PyVal` of the runtime values the
adapter manipulates: `None`, strings, tuples, lists, objects that carry a
`__name__` attribute (such as the inline-editor classes referenced from a tab
specification), and opaque objects without one (such as the configuration
dictionaries of a field group, which the adapter only stores and compares,
never inspects).  Python exceptions become an explicit `PyError` result via
`Except`; evaluation order of the source is mirrored so that the embedding
raises the same first error the source would.
-/

namespace TabbedAdmin

/-- A runtime value in the universe the adapter manipulates.  `tup`/`lst` are
values whose runtime type is exactly `tuple` / exactly `list`; `named` is an
object carrying a `__name__` attribute (identified by that name plus a
disambiguating id); `atom` is any other object, one without `__name__` and not
a container (for example a configuration dictionary, treated as opaque because
the adapter never looks inside it). -/
inductive PyVal where
  | none
  | str (s : String)
  | tup (xs : List PyVal)
  | lst (xs : List PyVal)
  | named (nm : String) (id : Nat)
  | atom (id : Nat)

mutual

/-- Structural equality of two values, the meaning of Python `==` on this
universe (tuples and lists compare element-wise and never equal each other,
every other value compares by its payload). -/
def pyBeq : PyVal → PyVal → Bool
  | .none, .none => true
  | .str s, .str t => s == t
  | .tup xs, .tup ys => pyBeqList xs ys
  | .lst xs, .lst ys => pyBeqList xs ys
  | .named n i, .named m j => n == m && i == j
  | .atom i, .atom j => i == j
  | _, _ => false

/-- Element-wise equality of two value sequences. -/
def pyBeqList : List PyVal → List PyVal → Bool
  | [], [] => true
  | x :: xs, y :: ys => pyBeq x y && pyBeqList xs ys
  | _, _ => false

end

/-- Membership of a value in a sequence of values, under Python equality. -/
def pyMem (x : PyVal) : List PyVal → Bool
  | [] => false
  | y :: ys => pyBeq x y || pyMem x ys

/-- The identity test `v is None` (the `None` object is unique, so it is a
value test on this universe). -/
def isNone : PyVal → Bool
  | .none => true
  | _ => false

/-- The exceptions the adapter can raise. -/
inductive PyError where
  | typeError (msg : String)
  | valueError (msg : String)
  | indexError
  | attributeError
  | keyError (k : String)
  deriving DecidableEq

/-- Python truthiness (`if x:`) for the values of our universe: `None`, empty
strings and empty containers are falsy; `named` objects (classes) and `atom`
objects modelled here are truthy. -/
def truthy : PyVal → Bool
  | .none => false
  | .str s => !s.isEmpty
  | .tup xs => !xs.isEmpty
  | .lst xs => !xs.isEmpty
  | .named _ _ => true
  | .atom _ => true

/-- The test `type(x) in [tuple, list]` of the source: the element list when
the runtime type is exactly tuple or exactly list, `none` otherwise. -/
def seqElems : PyVal → Option (List PyVal)
  | .tup xs => some xs
  | .lst xs => some xs
  | _ => Option.none

/-- Iteration (`for x in v`): tuples and lists yield their elements, strings
their one-character substrings; other values raise `TypeError`. -/
def pyIter : PyVal → Except PyError (List PyVal)
  | .tup xs => .ok xs
  | .lst xs => .ok xs
  | .str s => .ok (s.toList.map fun c => .str (String.singleton c))
  | _ => .error (.typeError "object is not iterable")

/-- The subscript `xs[i]` on a sequence of known elements: `IndexError` when
out of range. -/
def pyIndex (xs : List PyVal) (i : Nat) : Except PyError PyVal :=
  match xs.get? i with
  | some v => .ok v
  | Option.none => .error .indexError

/-- The attribute access `v.__name__`: only `named` objects have it; every
other value raises `AttributeError`. -/
def getName : PyVal → Except PyError String
  | .named nm _ => .ok nm
  | _ => .error .attributeError

/-- Substring containment, the meaning of `needle in haystack` on strings. -/
def strContainsSub (s sub : String) : Bool :=
  (List.range (s.toList.length + 1)).any
    fun i => ((s.toList.drop i).take sub.toList.length) == sub.toList

/-- The membership test `item in collection`: list/tuple membership is
element-wise equality, string membership is substring containment and demands
a string item, and any other left operand raises `TypeError`. -/
def pyContains (collection item : PyVal) : Except PyError Bool :=
  match collection with
  | .tup xs => .ok (pyMem item xs)
  | .lst xs => .ok (pyMem item xs)
  | .str s =>
    match item with
    | .str sub => .ok (strContainsSub s sub)
    | _ => .error (.typeError "in string requires string as left operand")
  | _ => .error (.typeError "argument is not a container")

/-- The loop body of `add_tabbed_item`: for each item, when it is not already
in the collection, rebuild a tuple collection extended at the end, append in
place to a list collection, and silently skip any other collection type. -/
def addItems : List PyVal → PyVal → Except PyError PyVal
  | [], coll => .ok coll
  | item :: rest, coll =>
    match pyContains coll item with
    | .error e => .error e
    | .ok b =>
      addItems rest
        (if b then coll
         else
           match coll with
           | .tup xs => .tup (xs ++ [item])
           | .lst xs => .lst (xs ++ [item])
           | c => c)

/-- `TabbedModelAdmin.add_tabbed_item(items_to_add, collection)`: when
`items_to_add` is truthy, fold its items into the collection; otherwise return
the collection unchanged. -/
def add_tabbed_item (items_to_add collection : PyVal) : Except PyError PyVal :=
  if truthy items_to_add then
    match pyIter items_to_add with
    | .error e => .error e
    | .ok items => addItems items collection
  else .ok collection

/-- The kind tag stored under the key `type` of a formatted tab entry. -/
inductive EntryKind where
  | fieldset
  | inline
  deriving DecidableEq

/-- A formatted tab entry, the dict `{type, name[, config]}` built by
`parse_fieldsets_inlines_from_tabs` for each entry of a tab. -/
structure FormattedEntry where
  type : EntryKind
  name : PyVal
  config : Option PyVal

/-- A formatted tab, the dict `{name, entries}`. -/
structure FormattedTab where
  name : PyVal
  entries : List FormattedEntry

/-- The result of a successful parse, the dict with keys `fields`,
`fieldsets` and `inlines` (the latter two are tuples in the source, kept here
as the lists of their elements). -/
structure FormattedTabs where
  fields : List FormattedTab
  fieldsets : List PyVal
  inlines : List PyVal

/-- The inner loop of `parse_fieldsets_inlines_from_tabs` over the entries of
one tab, threading the two accumulators `tabs_fieldsets` and `tabs_inlines`.
A tuple-or-list entry is recorded as a fieldset (the whole entry appended to
the fieldsets accumulator, its first two subscripts giving name and config); a
non-sequence entry is recorded as an inline identified by its `__name__`. -/
def processEntries : List PyVal → List PyVal → List PyVal →
    Except PyError (List PyVal × List PyVal × List FormattedEntry)
  | [], fs, ins => .ok (fs, ins, [])
  | e :: rest, fs, ins =>
    match seqElems e with
    | some xs =>
      match pyIndex xs 0 with
      | .error er => .error er
      | .ok n =>
        match pyIndex xs 1 with
        | .error er => .error er
        | .ok c =>
          match processEntries rest (fs ++ [e]) ins with
          | .error er => .error er
          | .ok (fs2, ins2, fes) => .ok (fs2, ins2, ⟨.fieldset, n, some c⟩ :: fes)
    | Option.none =>
      match getName e with
      | .error er => .error er
      | .ok nm =>
        match processEntries rest fs (ins ++ [e]) with
        | .error er => .error er
        | .ok (fs2, ins2, fes) => .ok (fs2, ins2, ⟨.inline, .str nm, Option.none⟩ :: fes)

/-- The outer loop of `parse_fieldsets_inlines_from_tabs` over the tabs: each
tab must be a tuple or list (`TypeError`), of exactly two elements
(`ValueError`), whose second element is again a tuple or list (`TypeError`);
then its entries are processed in order. -/
def processTabs : List PyVal → List PyVal → List PyVal →
    Except PyError (List PyVal × List PyVal × List FormattedTab)
  | [], fs, ins => .ok (fs, ins, [])
  | tab :: rest, fs, ins =>
    match seqElems tab with
    | Option.none =>
      .error (.typeError "Each tab entry must be either a list or a tuple")
    | some xs =>
      match xs with
      | [tname, tentries] =>
        match seqElems tentries with
        | Option.none =>
          .error (.typeError "A tab definition must be either a list or a tuple")
        | some es =>
          match processEntries es fs ins with
          | .error er => .error er
          | .ok (fs2, ins2, fes) =>
            match processTabs rest fs2 ins2 with
            | .error er => .error er
            | .ok (fs3, ins3, ftabs) => .ok (fs3, ins3, ⟨tname, fes⟩ :: ftabs)
      | _ =>
        .error (.valueError
          "Each tabs entry must contain 2 arguments: a verbose name and the tab setup.")

/-- `TabbedModelAdmin.parse_fieldsets_inlines_from_tabs`, as a function of the
`tabs` value it iterates. -/
def parse_fieldsets_inlines_from_tabs (tabs : PyVal) : Except PyError FormattedTabs :=
  match pyIter tabs with
  | .error e => .error e
  | .ok ts =>
    match processTabs ts [] [] with
    | .error e => .error e
    | .ok (fs, ins, ftabs) => .ok ⟨ftabs, fs, ins⟩

/-- `TabbedModelAdmin.get_formatted_tabs`: parse when `tabs` is truthy,
otherwise return the empty dict `{}` (modelled as `Option.none`). -/
def get_formatted_tabs (tabs : PyVal) : Except PyError (Option FormattedTabs) :=
  if truthy tabs then
    match parse_fieldsets_inlines_from_tabs tabs with
    | .error e => .error e
    | .ok f => .ok (some f)
  else .ok Option.none

/-- The admin object state the three entry points read: the `tabs`,
`fieldsets` and `inlines` attributes. -/
structure AdminState where
  tabs : PyVal
  fieldsets : PyVal
  inlines : PyVal

/-- The subscript `formatted['fieldsets']` applied to the result of
`get_formatted_tabs`: a `KeyError` when that result is the empty dict. -/
def lookupFieldsets (f : Option FormattedTabs) : Except PyError PyVal :=
  match f with
  | some f => .ok (.tup f.fieldsets)
  | Option.none => .error (.keyError "fieldsets")

/-- The subscript `formatted['inlines']`, likewise. -/
def lookupInlines (f : Option FormattedTabs) : Except PyError PyVal :=
  match f with
  | some f => .ok (.tup f.inlines)
  | Option.none => .error (.keyError "inlines")

/-- `TabbedModelAdmin.get_fieldsets`: read the derived fieldsets from the
formatted tabs, pick the empty tuple as base when `tabs is not None` and the
static `fieldsets` attribute otherwise, and merge. -/
def get_fieldsets (st : AdminState) : Except PyError PyVal :=
  match get_formatted_tabs st.tabs with
  | .error e => .error e
  | .ok ft =>
    match lookupFieldsets ft with
    | .error e => .error e
    | .ok tabs_fieldsets =>
      add_tabbed_item tabs_fieldsets
        (if isNone st.tabs then st.fieldsets else .tup [])

/-- `TabbedModelAdmin.get_inlines`: the same merge policy applied to the
inline collection (the source computes the base before parsing, which cannot
change the observable result since neither step depends on the other). -/
def get_inlines (st : AdminState) : Except PyError PyVal :=
  match get_formatted_tabs st.tabs with
  | .error e => .error e
  | .ok ft =>
    match lookupInlines ft with
    | .error e => .error e
    | .ok tabs_inlines =>
      add_tabbed_item tabs_inlines
        (if isNone st.tabs then st.inlines else .tup [])

/-
Helper lemmas about the merge loop.
-/

/-- A base collection whose runtime type is exactly tuple (`b = true`) or
exactly list (`b = false`), with the given elements. -/
def mkColl (b : Bool) (xs : List PyVal) : PyVal :=
  if b then .tup xs else .lst xs

/-- The three per-tab shape checks of the parse loop, as one predicate: a tab
is bad when it is not a tuple or list, or does not have exactly two elements,
or its second element (the tab setup) is not a tuple or list. -/
def badTab (tab : PyVal) : Bool :=
  match seqElems tab with
  | Option.none => true
  | some xs =>
    match xs with
    | [_, tentries] => (seqElems tentries).isNone
    | _ => true

/-- A validation failure in the sense of the spec: one of the `TypeError` /
`ValueError` exceptions raised explicitly by the shape checks of the parse
loop (as opposed to `IndexError` / `AttributeError` / `KeyError` escaping from
an unguarded access). -/
def isValidationError : PyError → Bool
  | .typeError _ => true
  | .valueError _ => true
  | _ => false

/-- An entry on which the per-entry accesses of the parse loop succeed: a
sequence entry with at least two elements, or a non-sequence entry carrying a
`__name__` attribute. -/
def goodEntry (e : PyVal) : Bool :=
  match seqElems e with
  | some xs => decide (2 ≤ xs.length)
  | Option.none =>
    match getName e with
    | .ok _ => true
    | .error _ => false

/-- Every entry of the tab is good, for a tab that passes the shape checks
(vacuously true for a tab that fails them, where no entry is ever read). -/
def tabEntriesGood (tab : PyVal) : Bool :=
  match seqElems tab with
  | some [_, tentries] =>
    match seqElems tentries with
    | some es => es.all goodEntry
    | Option.none => true
  | _ => true

/-- How the parse loop classifies one tab entry, read off its formatted
counterpart: a tuple-or-list entry becomes a field group (kind `fieldset`,
named by its first element, configured by its second), any other entry becomes
an editor reference (kind `inline`, identified by its `__name__`). -/
def entryClassified (e : PyVal) (fe : FormattedEntry) : Prop :=
  match seqElems e with
  | some xs => ∃ n c, pyIndex xs 0 = .ok n ∧ pyIndex xs 1 = .ok c ∧
      fe = ⟨.fieldset, n, some c⟩
  | Option.none => ∃ nm, getName e = .ok nm ∧ fe = ⟨.inline, .str nm, Option.none⟩

/-- Whether a value's runtime type is exactly `list` (the one collection type
`add_tabbed_item` mutates in place via `append`). -/
def isList : PyVal → Bool
  | .lst _ => true
  | _ => false

/-- State-passing version of `parse_fieldsets_inlines_from_tabs`: the parse
loop reads `self.tabs` (through `get_tabs`) and writes only freshly allocated
structures (the `formatted_tabs` dict, each `formatted_tab` dict and its fresh
`entries` list, and the two tuple accumulators rebuilt by `+`), so it performs
no write to any attribute of the admin object or to any part of the tabs
value; the state after the call is the state before it. -/
def parseS (st : AdminState) : Except PyError (FormattedTabs × AdminState) :=
  match parse_fieldsets_inlines_from_tabs st.tabs with
  | .error e => .error e
  | .ok f => .ok (f, st)

/-- State-passing version of `get_fieldsets`, recording every write the call
can make to the admin object's attributes.  The method itself assigns no
attribute; the one in-place mutation in `add_tabbed_item` (`collection.append`
on a list) acts on the object locally bound to `fieldsets`, which aliases the
attribute `self.fieldsets` exactly when the `tabs is not None` branch did not
rebind it to the fresh `()`, so on that path a list-typed attribute holds the
merge result afterwards. -/
def get_fieldsetsS (st : AdminState) : Except PyError (PyVal × AdminState) :=
  match get_formatted_tabs st.tabs with
  | .error e => .error e
  | .ok ft =>
    match lookupFieldsets ft with
    | .error e => .error e
    | .ok tabs_fieldsets =>
      match add_tabbed_item tabs_fieldsets
          (if isNone st.tabs then st.fieldsets else .tup []) with
      | .error e => .error e
      | .ok r =>
        if isNone st.tabs && isList st.fieldsets then
          .ok (r, { st with fieldsets := r })
        else .ok (r, st)

/-- State-passing version of `get_inlines`, with the same aliasing analysis
applied to the `inlines` attribute. -/
def get_inlinesS (st : AdminState) : Except PyError (PyVal × AdminState) :=
  match get_formatted_tabs st.tabs with
  | .error e => .error e
  | .ok ft =>
    match lookupInlines ft with
    | .error e => .error e
    | .ok tabs_inlines =>
      match add_tabbed_item tabs_inlines
          (if isNone st.tabs then st.inlines else .tup []) with
      | .error e => .error e
      | .ok r =>
        if isNone st.tabs && isList st.inlines then
          .ok (r, { st with inlines := r })
        else .ok (r, st)

/-- A concrete admin state used to exercise the frame theorem: one tab named
`"T"` holding one inline entry, with static attributes of both runtime types. -/
def exampleState : AdminState :=
  ⟨.tup [.tup [.str "T", .tup [.named "AuthorInline" 4]]], .tup [], .lst []⟩

mutual

/-- `pyBeq` decides propositional equality. -/
theorem pyBeq_iff (a b : PyVal) : pyBeq a b = true ↔ a = b := by
  cases a <;> cases b <;>
    simp [pyBeq, Bool.and_eq_true, beq_iff_eq] <;>
    exact pyBeqList_iff _ _

/-- `pyBeqList` decides propositional equality of sequences. -/
theorem pyBeqList_iff (xs ys : List PyVal) : pyBeqList xs ys = true ↔ xs = ys := by
  cases xs with
  | nil => cases ys <;> simp [pyBeqList]
  | cons x xs =>
    cases ys with
    | nil => simp [pyBeqList]
    | cons y ys =>
      simp [pyBeqList, Bool.and_eq_true, pyBeq_iff x y, pyBeqList_iff xs ys]

end

/-- `pyMem` decides list membership. -/
theorem pyMem_iff (x : PyVal) (xs : List PyVal) : pyMem x xs = true ↔ x ∈ xs := by
  induction xs with
  | nil => simp [pyMem]
  | cons y ys ih => simp [pyMem, Bool.or_eq_true, pyBeq_iff, ih]

theorem pyContains_mkColl (b : Bool) (xs : List PyVal) (item : PyVal) :
    pyContains (mkColl b xs) item = .ok (pyMem item xs) := by
  cases b <;> rfl

theorem addItems_cons_mkColl (b : Bool) (item : PyVal) (rest xs : List PyVal) :
    addItems (item :: rest) (mkColl b xs) =
      addItems rest
        (if pyMem item xs then mkColl b xs else mkColl b (xs ++ [item])) := by
  cases b <;> cases h : pyMem item xs <;> simp [addItems, pyContains, mkColl, h]

/-- The merge loop on a tuple-or-list base appends exactly the not-yet-present
items, in order, at the end. -/
theorem addItems_mkColl (b : Bool) (items : List PyVal) : ∀ xs : List PyVal,
    ∃ ys, addItems items (mkColl b xs) = .ok (mkColl b (xs ++ ys)) ∧
      ys.Nodup ∧ (∀ y ∈ ys, y ∈ items ∧ y ∉ xs) ∧ (∀ i ∈ items, i ∈ xs ++ ys) := by
  induction items with
  | nil =>
    intro xs
    exact ⟨[], by simp [addItems], by simp, by simp, by simp⟩
  | cons item rest ih =>
    intro xs
    by_cases h : item ∈ xs
    · have hm : pyMem item xs = true := (pyMem_iff item xs).mpr h
      obtain ⟨ys, hys, hnd, hmem, hall⟩ := ih xs
      refine ⟨ys, ?_, hnd,
        fun y hy => ⟨List.mem_cons_of_mem _ (hmem y hy).1, (hmem y hy).2⟩, ?_⟩
      · rw [addItems_cons_mkColl, if_pos hm]; exact hys
      · intro i hi
        rcases List.mem_cons.mp hi with rfl | hi
        · exact List.mem_append.mpr (Or.inl h)
        · exact hall i hi
    · have hnm : ¬ pyMem item xs = true := fun hc => h ((pyMem_iff item xs).mp hc)
      obtain ⟨ys, hys, hnd, hmem, hall⟩ := ih (xs ++ [item])
      refine ⟨item :: ys, ?_, ?_, ?_, ?_⟩
      · rw [addItems_cons_mkColl, if_neg hnm, hys]
        simp
      · refine List.nodup_cons.mpr ⟨?_, hnd⟩
        intro hin
        exact (hmem item hin).2 (by simp)
      · intro y hy
        rcases List.mem_cons.mp hy with rfl | hy
        · exact ⟨List.mem_cons_self _ _, h⟩
        · obtain ⟨hr, hnx⟩ := hmem y hy
          exact ⟨List.mem_cons_of_mem _ hr, fun hx => hnx (List.mem_append.mpr (Or.inl hx))⟩
      · intro i hi
        rcases List.mem_cons.mp hi with rfl | hi
        · simp
        · have := hall i hi
          simp only [List.append_assoc, List.singleton_append] at this ⊢
          exact this

/-- The merge loop leaves a string base unchanged when every item is a string
(the membership test succeeds and neither rebuild branch applies). -/
theorem addItems_str (items : List PyVal) (s : String)
    (h : ∀ i ∈ items, ∃ t, i = PyVal.str t) :
    addItems items (.str s) = .ok (.str s) := by
  induction items with
  | nil => rfl
  | cons item rest ih =>
    obtain ⟨t, rfl⟩ := h item (List.mem_cons_self _ _)
    have step : addItems (PyVal.str t :: rest) (.str s) =
        addItems rest (if strContainsSub s t then PyVal.str s else PyVal.str s) := by
      simp [addItems, pyContains]
    rw [step, ite_self]
    exact ih fun i hi => h i (List.mem_cons_of_mem _ hi)

/-- On good entries every per-entry access succeeds, so the entry loop
returns a result. -/
theorem processEntries_ok (es : List PyVal) :
    ∀ fs ins, (∀ e ∈ es, goodEntry e = true) →
    ∃ r, processEntries es fs ins = .ok r := by
  induction es with
  | nil => intro fs ins _; exact ⟨(fs, ins, []), rfl⟩
  | cons e rest ih =>
    intro fs ins h
    have he := h e (List.mem_cons_self _ _)
    have hrest : ∀ e2 ∈ rest, goodEntry e2 = true :=
      fun e2 he2 => h e2 (List.mem_cons_of_mem _ he2)
    cases hse : seqElems e with
    | some xs =>
      have hlen : 2 ≤ xs.length := by
        simp only [goodEntry, hse] at he
        exact of_decide_eq_true he
      obtain ⟨v0, hv0⟩ : ∃ v, pyIndex xs 0 = .ok v := by
        unfold pyIndex
        cases hg : xs.get? 0 with
        | none => have := List.get?_eq_none.mp hg; omega
        | some v => exact ⟨v, rfl⟩
      obtain ⟨v1, hv1⟩ : ∃ v, pyIndex xs 1 = .ok v := by
        unfold pyIndex
        cases hg : xs.get? 1 with
        | none => have := List.get?_eq_none.mp hg; omega
        | some v => exact ⟨v, rfl⟩
      obtain ⟨⟨fs2, ins2, fes⟩, hr⟩ := ih (fs ++ [e]) ins hrest
      exact ⟨(fs2, ins2, ⟨.fieldset, v0, some v1⟩ :: fes),
        by simp [processEntries, hse, hv0, hv1, hr]⟩
    | none =>
      obtain ⟨nm, hnm⟩ : ∃ nm, getName e = .ok nm := by
        simp only [goodEntry, hse] at he
        cases hg : getName e with
        | ok nm => exact ⟨nm, rfl⟩
        | error er => rw [hg] at he; exact absurd he (by simp)
      obtain ⟨⟨fs2, ins2, fes⟩, hr⟩ := ih fs (ins ++ [e]) hrest
      exact ⟨(fs2, ins2, ⟨.inline, .str nm, Option.none⟩ :: fes),
        by simp [processEntries, hse, hnm, hr]⟩

/-- When every tab passes the shape checks and every entry is good, the tab
loop returns a result. -/
theorem processTabs_good_ok (ts : List PyVal) :
    ∀ fs ins, (∀ t ∈ ts, badTab t = false ∧ tabEntriesGood t = true) →
    ∃ r, processTabs ts fs ins = .ok r := by
  induction ts with
  | nil => intro fs ins _; exact ⟨(fs, ins, []), rfl⟩
  | cons t rest ih =>
    intro fs ins h
    obtain ⟨hbad, hgood⟩ := h t (List.mem_cons_self _ _)
    have hrest : ∀ t2 ∈ rest, badTab t2 = false ∧ tabEntriesGood t2 = true :=
      fun t2 ht2 => h t2 (List.mem_cons_of_mem _ ht2)
    cases hse : seqElems t with
    | none => simp [badTab, hse] at hbad
    | some xs =>
      rcases xs with _ | ⟨tname, rest2⟩
      · simp [badTab, hse] at hbad
      rcases rest2 with _ | ⟨tentries, rest3⟩
      · simp [badTab, hse] at hbad
      rcases rest3 with _ | ⟨z, zs⟩
      · cases hst : seqElems tentries with
        | none => simp [badTab, hse, hst] at hbad
        | some es =>
          have hEntries : ∀ e ∈ es, goodEntry e = true := by
            simp only [tabEntriesGood, hse, hst] at hgood
            exact List.all_eq_true.mp hgood
          obtain ⟨⟨fs2, ins2, fes⟩, hpe⟩ := processEntries_ok es fs ins hEntries
          obtain ⟨⟨fs3, ins3, ftabs⟩, hpt⟩ := ih fs2 ins2 hrest
          exact ⟨(fs3, ins3, ⟨tname, fes⟩ :: ftabs),
            by simp [processTabs, hse, hst, hpe, hpt]⟩
      · simp [badTab, hse] at hbad

/-- When every entry is good but some tab fails the shape checks, the tab loop
raises one of the two validation exceptions. -/
theorem processTabs_bad_validation (ts : List PyVal) :
    ∀ fs ins, (∀ t ∈ ts, tabEntriesGood t = true) → (∃ t ∈ ts, badTab t = true) →
    ∃ e, processTabs ts fs ins = .error e ∧ isValidationError e = true := by
  induction ts with
  | nil => intro fs ins _ hex; simp at hex
  | cons t rest ih =>
    intro fs ins hall hex
    cases hbt : badTab t with
    | true =>
      cases hse : seqElems t with
      | none =>
        exact ⟨.typeError "Each tab entry must be either a list or a tuple",
          by simp [processTabs, hse], rfl⟩
      | some xs =>
        rcases xs with _ | ⟨tname, rest2⟩
        · exact ⟨.valueError
            "Each tabs entry must contain 2 arguments: a verbose name and the tab setup.",
            by simp [processTabs, hse], rfl⟩
        rcases rest2 with _ | ⟨tentries, rest3⟩
        · exact ⟨.valueError
            "Each tabs entry must contain 2 arguments: a verbose name and the tab setup.",
            by simp [processTabs, hse], rfl⟩
        rcases rest3 with _ | ⟨z, zs⟩
        · cases hst : seqElems tentries with
          | none => exact ⟨.typeError "A tab definition must be either a list or a tuple",
              by simp [processTabs, hse, hst], rfl⟩
          | some es => simp [badTab, hse, hst] at hbt
        · exact ⟨.valueError
            "Each tabs entry must contain 2 arguments: a verbose name and the tab setup.",
            by simp [processTabs, hse], rfl⟩
    | false =>
      have hex2 : ∃ t2 ∈ rest, badTab t2 = true := by
        rcases hex with ⟨t2, ht2, hb⟩
        rcases List.mem_cons.mp ht2 with rfl | hmem
        · rw [hbt] at hb; exact absurd hb (by simp)
        · exact ⟨t2, hmem, hb⟩
      cases hse : seqElems t with
      | none => simp [badTab, hse] at hbt
      | some xs =>
        rcases xs with _ | ⟨tname, rest2⟩
        · simp [badTab, hse] at hbt
        rcases rest2 with _ | ⟨tentries, rest3⟩
        · simp [badTab, hse] at hbt
        rcases rest3 with _ | ⟨z, zs⟩
        · cases hst : seqElems tentries with
          | none => simp [badTab, hse, hst] at hbt
          | some es =>
            have hEntries : ∀ e ∈ es, goodEntry e = true := by
              have := hall t (List.mem_cons_self _ _)
              simp only [tabEntriesGood, hse, hst] at this
              exact List.all_eq_true.mp this
            obtain ⟨⟨fs2, ins2, fes⟩, hpe⟩ := processEntries_ok es fs ins hEntries
            obtain ⟨e, he, hv⟩ := ih fs2 ins2
              (fun t2 ht2 => hall t2 (List.mem_cons_of_mem _ ht2)) hex2
            exact ⟨e, by simp [processTabs, hse, hst, hpe, he], hv⟩
        · simp [badTab, hse] at hbt

/-
Claim theorems.
-/

/-- C3 counterexample: a three-element tuple entry is a sequence that is not a
two-element pair, so the claim classifies it as an editor reference; but the
code classifies every tuple-or-list entry as a field group: the whole entry
lands in the derived fieldsets, its formatted counterpart has kind `fieldset`,
and the derived inlines stay empty (where the claim predicts the opposite
split). -/
theorem C3_counterexample :
    parse_fieldsets_inlines_from_tabs
        (.tup [.tup [.str "T", .tup [.tup [.str "a", .str "b", .str "c"]]]])
      = .ok ⟨[⟨.str "T", [⟨.fieldset, .str "a", some (.str "b")⟩]⟩],
             [.tup [.str "a", .str "b", .str "c"]], []⟩ := by
  rfl

/-- C3 (amended): the per-entry loop of the parse classifies a tab entry that
is a tuple or list — of any length, not only a two-element pair — as a field
group (the entry joins the derived fieldsets, in order, and its formatted
counterpart has kind `fieldset`, named and configured by the entry's first two
elements), and any non-sequence entry as an editor reference identified by its
`__name__` (the entry joins the derived inlines, kind `inline`). -/
theorem C3_amended_classification (es : List PyVal) :
    ∀ (fs ins fs2 ins2 : List PyVal) (fes : List FormattedEntry),
    processEntries es fs ins = .ok (fs2, ins2, fes) →
    fs2 = fs ++ es.filter (fun e => (seqElems e).isSome) ∧
    ins2 = ins ++ es.filter (fun e => (seqElems e).isNone) ∧
    List.Forall₂ entryClassified es fes := by
  induction es with
  | nil =>
    intro fs ins fs2 ins2 fes h
    simp only [processEntries, Except.ok.injEq, Prod.mk.injEq] at h
    obtain ⟨rfl, rfl, rfl⟩ := h
    exact ⟨by simp, by simp, List.Forall₂.nil⟩
  | cons e rest ih =>
    intro fs ins fs2 ins2 fes h
    cases hse : seqElems e with
    | some xs =>
      cases h0 : pyIndex xs 0 with
      | error er => simp [processEntries, hse, h0] at h
      | ok n =>
        cases h1 : pyIndex xs 1 with
        | error er => simp [processEntries, hse, h0, h1] at h
        | ok c =>
          cases h2 : processEntries rest (fs ++ [e]) ins with
          | error er => simp [processEntries, hse, h0, h1, h2] at h
          | ok trip =>
            obtain ⟨fs2x, ins2x, fesx⟩ := trip
            simp only [processEntries, hse, h0, h1, h2, Except.ok.injEq,
              Prod.mk.injEq] at h
            obtain ⟨rfl, rfl, rfl⟩ := h
            obtain ⟨hfs, hins, hfa⟩ := ih (fs ++ [e]) ins fs2x ins2x fesx h2
            refine ⟨?_, ?_, ?_⟩
            · rw [hfs, List.filter_cons_of_pos (by simp [hse])]
              simp
            · rw [hins, List.filter_cons_of_neg (by simp [hse])]
            · refine List.Forall₂.cons ?_ hfa
              simp only [entryClassified, hse]
              exact ⟨n, c, h0, h1, rfl⟩
    | none =>
      cases h0 : getName e with
      | error er => simp [processEntries, hse, h0] at h
      | ok nm =>
        cases h2 : processEntries rest fs (ins ++ [e]) with
        | error er => simp [processEntries, hse, h0, h2] at h
        | ok trip =>
          obtain ⟨fs2x, ins2x, fesx⟩ := trip
          simp only [processEntries, hse, h0, h2, Except.ok.injEq,
            Prod.mk.injEq] at h
          obtain ⟨rfl, rfl, rfl⟩ := h
          obtain ⟨hfs, hins, hfa⟩ := ih fs (ins ++ [e]) fs2x ins2x fesx h2
          refine ⟨?_, ?_, ?_⟩
          · rw [hfs, List.filter_cons_of_neg (by simp [hse])]
          · rw [hins, List.filter_cons_of_pos (by simp [hse])]
            simp
          · refine List.Forall₂.cons ?_ hfa
            simp only [entryClassified, hse]
            exact ⟨nm, h0, rfl⟩

/-- C3 witness: the amended classification evaluated on the entry list holding
one three-element tuple entry and one inline class, against a nonempty
fieldsets accumulator. -/
theorem C3_amended_classification_witness :
    ([PyVal.atom 9, .tup [.str "a", .str "b", .str "c"]] : List PyVal)
        = [PyVal.atom 9]
          ++ ([PyVal.tup [.str "a", .str "b", .str "c"], .named "AuthorInline" 3].filter
              (fun e => (seqElems e).isSome)) ∧
    ([PyVal.named "AuthorInline" 3] : List PyVal)
        = []
          ++ ([PyVal.tup [.str "a", .str "b", .str "c"], .named "AuthorInline" 3].filter
              (fun e => (seqElems e).isNone)) ∧
    List.Forall₂ entryClassified
      [PyVal.tup [.str "a", .str "b", .str "c"], .named "AuthorInline" 3]
      [⟨.fieldset, .str "a", some (.str "b")⟩, ⟨.inline, .str "AuthorInline", Option.none⟩] :=
  C3_amended_classification
    [PyVal.tup [.str "a", .str "b", .str "c"], .named "AuthorInline" 3]
    [PyVal.atom 9] [] _ _ _ rfl

/-- C1: the claim promises that with `tabs = None` the two accessors return
the statically declared defaults unchanged rather than failing (as the method
docstring also states).  The code does fail: `get_formatted_tabs` returns the
empty dict when `tabs` is falsy, and the unconditional `['fieldsets']` /
`['inlines']` subscript in `get_fieldsets` / `get_inlines` then raises
`KeyError`, so the static defaults are never returned. -/
theorem C1_keyError_when_tabs_is_none :
    get_fieldsets ⟨PyVal.none, .tup [.tup [.str "fs", .atom 0]], .lst [.named "AuthorInline" 1]⟩
      = .error (.keyError "fieldsets") ∧
    get_inlines ⟨PyVal.none, .tup [.tup [.str "fs", .atom 0]], .lst [.named "AuthorInline" 1]⟩
      = .error (.keyError "inlines") := by
  constructor <;> rfl

/-- C5: a tab specification containing zero tabs parses to empty derived
field-group and editor collections (whether the empty specification is a
tuple or a list). -/
theorem C5_zero_tabs_yield_empty_collections :
    parse_fieldsets_inlines_from_tabs (.tup []) = .ok ⟨[], [], []⟩ ∧
    parse_fieldsets_inlines_from_tabs (.lst []) = .ok ⟨[], [], []⟩ := by
  constructor <;> rfl

/-- C6: the single-tab specification `("Main", (("Names", {...}),))` (the
configuration dict modelled as the opaque `atom 0`) parses to a formatted
structure with exactly one tab named `"Main"`, holding exactly one entry of
type fieldset named `"Names"` with that configuration. -/
theorem C6_single_tab_formatted_structure :
    parse_fieldsets_inlines_from_tabs
        (.tup [.tup [.str "Main", .tup [.tup [.str "Names", .atom 0]]]])
      = .ok ⟨[⟨.str "Main", [⟨.fieldset, .str "Names", some (.atom 0)⟩]⟩],
             [.tup [.str "Names", .atom 0]], []⟩ := by
  rfl

/-- C4 counterexample: the claim quantifies over every base collection, but on
a base whose runtime type is neither exactly tuple nor exactly list the merge
appends nothing: with the string base `"xy"` and the derived item `"zz"`, the
item is not present in the base yet the result is the base unchanged, so the
promised append at the end does not happen. -/
theorem C4_counterexample :
    pyContains (.str "xy") (.str "zz") = .ok false ∧
    add_tabbed_item (.tup [.str "zz"]) (.str "xy") = .ok (.str "xy") := by
  constructor <;> rfl

/-- C4 (amended): for every base collection whose runtime type is exactly
tuple or exactly list, the merge returns the base with each derived item not
already present appended at the end, preserving the base's original ordering
(the base's elements form the unchanged front of the result), removing no
existing item, and producing no duplicate of an item already present in the
base (nor among the appended items). -/
theorem C4_amended_merge_into_tuple_or_list (b : Bool) (items xs : List PyVal) :
    ∃ ys, add_tabbed_item (.tup items) (mkColl b xs) = .ok (mkColl b (xs ++ ys)) ∧
      ys.Nodup ∧ (∀ y ∈ ys, y ∈ items ∧ y ∉ xs) ∧ (∀ i ∈ items, i ∈ xs ++ ys) := by
  cases items with
  | nil =>
    exact ⟨[], by cases b <;> simp [add_tabbed_item, truthy, mkColl], by simp, by simp, by simp⟩
  | cons item rest =>
    have hred : add_tabbed_item (.tup (item :: rest)) (mkColl b xs) =
        addItems (item :: rest) (mkColl b xs) := by
      simp [add_tabbed_item, truthy, pyIter]
    rw [hred]
    exact addItems_mkColl b (item :: rest) xs

/-- C4 witness: the amended merge evaluated concretely — a tuple base holding
one object, merged with a two-item derived tuple repeating that object,
appends only the genuinely new item at the end. -/
theorem C4_amended_merge_witness :
    ∃ ys, add_tabbed_item (.tup [.atom 1, .atom 2]) (mkColl true [.atom 1])
        = .ok (mkColl true ([.atom 1] ++ ys)) ∧
      ys.Nodup ∧ (∀ y ∈ ys, y ∈ [PyVal.atom 1, .atom 2] ∧ y ∉ [PyVal.atom 1]) ∧
      (∀ i ∈ [PyVal.atom 1, .atom 2], i ∈ [PyVal.atom 1] ++ ys) :=
  C4_amended_merge_into_tuple_or_list true [.atom 1, .atom 2] [.atom 1]

/-- C9 counterexample: for a base collection whose runtime type is neither
exactly tuple nor exactly list, the claim says every derived item is silently
discarded and the base returned unchanged; but with a string base and a
non-string derived item the membership test itself raises `TypeError`, so
nothing is returned at all. -/
theorem C9_counterexample :
    add_tabbed_item (.tup [.tup []]) (.str "ab")
      = .error (.typeError "in string requires string as left operand") ∧
    add_tabbed_item (.tup [.tup []]) (.str "ab") ≠ .ok (.str "ab") := by
  exact ⟨rfl, fun h => Except.noConfusion h⟩

/-- C9 (amended): on a base whose runtime type is neither exactly tuple nor
exactly list, the merge discards every derived item and returns the base
unchanged provided each membership test succeeds (for example a string base
with string items); when a membership test is unsupported (any item against a
non-container base such as `None`, an object, or a class) it raises
`TypeError` instead; and whenever the derived-item sequence is empty or falsy
the base is returned unchanged regardless of its type. -/
theorem C9_amended_non_sequence_base (s : String) (items : List PyVal)
    (hstr : ∀ i ∈ items, ∃ t, i = PyVal.str t) :
    add_tabbed_item (.tup items) (.str s) = .ok (.str s) ∧
    (∀ its coll, truthy its = false → add_tabbed_item its coll = .ok coll) ∧
    (∀ id item rest, add_tabbed_item (.tup (item :: rest)) (.atom id)
        = .error (.typeError "argument is not a container")) ∧
    (∀ nm id item rest, add_tabbed_item (.tup (item :: rest)) (.named nm id)
        = .error (.typeError "argument is not a container")) ∧
    (∀ item rest, add_tabbed_item (.tup (item :: rest)) PyVal.none
        = .error (.typeError "argument is not a container")) := by
  refine ⟨?_, ?_, ?_, ?_, ?_⟩
  · cases items with
    | nil => rfl
    | cons item rest =>
      have hred : add_tabbed_item (.tup (item :: rest)) (.str s) =
          addItems (item :: rest) (.str s) := by
        simp [add_tabbed_item, truthy, pyIter]
      rw [hred]
      exact addItems_str _ s hstr
  · intro its coll h
    simp [add_tabbed_item, h]
  · intro id item rest
    rfl
  · intro nm id item rest
    rfl
  · intro item rest
    rfl

/-- C9 witness: the amended statement at the string base `"xy"` with the
single string item `"ab"`. -/
theorem C9_amended_non_sequence_base_witness :
    add_tabbed_item (.tup [.str "ab"]) (.str "xy") = .ok (.str "xy") ∧
    add_tabbed_item (.tup []) (.lst [.atom 3]) = .ok (.lst [.atom 3]) :=
  ⟨(C9_amended_non_sequence_base "xy" [.str "ab"]
      (fun _ hi => ⟨"ab", List.mem_singleton.mp hi⟩)).1,
   (C9_amended_non_sequence_base "xy" [.str "ab"]
      (fun _ hi => ⟨"ab", List.mem_singleton.mp hi⟩)).2.1 (.tup []) (.lst [.atom 3]) rfl⟩

/-- C7 counterexample: the claim quantifies over every admin whose `tabs` is
set (not `None`), but an admin whose `tabs` is the empty tuple `()` is a
counterexample: `()` is not `None`, yet `get_fieldsets` and `get_inlines` do
not return any merged collection at all — `get_formatted_tabs` treats the
falsy `()` like an absent specification and returns the empty dict, whose
subscript raises `KeyError`. -/
theorem C7_counterexample :
    PyVal.tup [] ≠ PyVal.none ∧
    get_fieldsets ⟨.tup [], .tup [.tup [.str "fs", .atom 0]], .lst []⟩
      = .error (.keyError "fieldsets") ∧
    get_inlines ⟨.tup [], .tup [], .lst [.named "AuthorInline" 2]⟩
      = .error (.keyError "inlines") := by
  exact ⟨fun h => PyVal.noConfusion h, rfl, rfl⟩

/-- C2 counterexample: a specification whose single tab passes all three
shape checks — it is a pair of a name and a tuple of entries — but whose one
entry is the empty tuple.  The claim says parsing succeeds whenever no tab
fails the shape checks; instead the parse raises `IndexError` (which is not
one of the validation failures) from the unguarded `tab_entry[0]`. -/
theorem C2_counterexample :
    badTab (PyVal.tup [.str "A", .tup [.tup []]]) = false ∧
    parse_fieldsets_inlines_from_tabs (.tup [.tup [.str "A", .tup [.tup []]]])
      = .error .indexError ∧
    isValidationError .indexError = false := by
  exact ⟨rfl, rfl, rfl⟩

/-- C2 (amended): for a tab specification in which every entry is well formed
(each sequence entry has at least two elements, each non-sequence entry has a
`__name__`), the parse raises a validation failure (one of its explicit
`TypeError` / `ValueError` checks) if some tab is not a tuple or list, or does
not have exactly two elements, or has an entries component that is not a tuple
or list — and succeeds when no tab is malformed.  (Without the well-formedness
of entries, a malformed entry can instead raise `IndexError` or
`AttributeError`, as the counterexample shows.) -/
theorem C2_amended_validation (ts : List PyVal)
    (h : ∀ t ∈ ts, tabEntriesGood t = true) :
    ((∃ t ∈ ts, badTab t = true) →
      ∃ e, parse_fieldsets_inlines_from_tabs (.tup ts) = .error e ∧
        isValidationError e = true) ∧
    ((∀ t ∈ ts, badTab t = false) →
      ∃ f, parse_fieldsets_inlines_from_tabs (.tup ts) = .ok f) := by
  constructor
  · intro hex
    obtain ⟨e, he, hv⟩ := processTabs_bad_validation ts [] [] h hex
    exact ⟨e, by simp [parse_fieldsets_inlines_from_tabs, pyIter, he], hv⟩
  · intro hng
    obtain ⟨⟨fs, ins, ftabs⟩, hr⟩ := processTabs_good_ok ts [] []
      (fun t ht => ⟨hng t ht, h t ht⟩)
    exact ⟨⟨ftabs, fs, ins⟩, by simp [parse_fieldsets_inlines_from_tabs, pyIter, hr]⟩

/-- C2 witness: the amended statement applied to a one-tab specification with
a single well-formed inline entry; its success branch yields a parse result. -/
theorem C2_amended_validation_witness :
    ∃ f, parse_fieldsets_inlines_from_tabs
        (.tup [PyVal.tup [.str "A", .tup [.named "AuthorInline" 5]]]) = .ok f :=
  (C2_amended_validation [PyVal.tup [.str "A", .tup [.named "AuthorInline" 5]]]
      (by intro t ht; rw [List.mem_singleton.mp ht]; rfl)).2
    (by intro t ht; rw [List.mem_singleton.mp ht]; rfl)

/-- C10: the per-entry accesses of the parse loop are not total.  Inside any
tab that passes the shape checks, a sequence entry with fewer than two
elements makes the parse fail with an unguarded `IndexError` from
`tab_entry[0]` / `tab_entry[1]`, and a non-sequence entry without a `__name__`
attribute makes it fail with an `AttributeError` from `tab_entry.__name__`;
neither is one of the validation failures the checks raise deliberately. -/
theorem C10_entry_accesses_not_total :
    (∀ (tname : PyVal) (rest : List PyVal) (se : PyVal) (xs : List PyVal),
      seqElems se = some xs → xs.length < 2 →
      parse_fieldsets_inlines_from_tabs (.tup [.tup [tname, .tup (se :: rest)]])
        = .error .indexError) ∧
    (∀ (tname : PyVal) (rest : List PyVal) (e : PyVal),
      seqElems e = Option.none → getName e = .error .attributeError →
      parse_fieldsets_inlines_from_tabs (.tup [.tup [tname, .tup (e :: rest)]])
        = .error .attributeError) ∧
    isValidationError .indexError = false ∧
    isValidationError .attributeError = false := by
  refine ⟨?_, ?_, rfl, rfl⟩
  · intro tname rest se xs hse hlen
    have hpe : processEntries (se :: rest) [] [] = .error .indexError := by
      rcases xs with _ | ⟨a, _ | ⟨b, t⟩⟩
      · simp [processEntries, hse, pyIndex]
      · simp [processEntries, hse, pyIndex]
      · simp at hlen; omega
    simp [parse_fieldsets_inlines_from_tabs, pyIter, processTabs, seqElems, hpe]
  · intro tname rest e hse hnm
    have hpe : processEntries (e :: rest) [] [] = .error .attributeError := by
      simp [processEntries, hse, hnm]
    simp [parse_fieldsets_inlines_from_tabs, pyIter, processTabs, seqElems, hpe]

/-- C10 witness: the two partial accesses exercised at concrete entries — a
one-element tuple entry raises `IndexError`, a string entry (which has no
`__name__`) raises `AttributeError`. -/
theorem C10_entry_accesses_not_total_witness :
    parse_fieldsets_inlines_from_tabs
        (.tup [.tup [.str "N", .tup [.tup [.str "x"]]]]) = .error .indexError ∧
    parse_fieldsets_inlines_from_tabs
        (.tup [.tup [.str "N", .tup [.str "notaclass"]]]) = .error .attributeError :=
  ⟨C10_entry_accesses_not_total.1 (.str "N") [] (.tup [.str "x"]) [.str "x"] rfl
     (by simp),
   C10_entry_accesses_not_total.2.1 (.str "N") [] (.str "notaclass") rfl rfl⟩

/-- C7 (amended): for an admin whose tab specification is truthy (set and
non-empty) and parses successfully, the two accessors ignore the statically
declared `fieldsets` / `inlines` entirely: each returns exactly the items
derived from the tab specification merged into the empty tuple base, so no
statically declared item is included. -/
theorem C7_amended_static_ignored (st : AdminState) (f : FormattedTabs)
    (ht : truthy st.tabs = true)
    (hp : parse_fieldsets_inlines_from_tabs st.tabs = .ok f) :
    get_fieldsets st = add_tabbed_item (.tup f.fieldsets) (.tup []) ∧
    get_inlines st = add_tabbed_item (.tup f.inlines) (.tup []) := by
  have hn : isNone st.tabs = false := by
    cases hv : st.tabs with
    | none => rw [hv] at ht; exact absurd ht (by simp [truthy])
    | str s => rfl
    | tup xs => rfl
    | lst xs => rfl
    | named nm id => rfl
    | atom id => rfl
  constructor
  · simp [get_fieldsets, get_formatted_tabs, ht, hp, lookupFieldsets, hn]
  · simp [get_inlines, get_formatted_tabs, ht, hp, lookupInlines, hn]

/-- C7 witness: an admin with one tab (named `"T"`, no entries) and nonempty
static attributes; both accessors return the merge into the empty base,
containing none of the static items. -/
theorem C7_amended_static_ignored_witness :
    get_fieldsets ⟨.tup [.tup [.str "T", .tup []]], .tup [.atom 5], .lst [.named "B" 6]⟩
      = add_tabbed_item (.tup []) (.tup []) ∧
    get_inlines ⟨.tup [.tup [.str "T", .tup []]], .tup [.atom 5], .lst [.named "B" 6]⟩
      = add_tabbed_item (.tup []) (.tup []) :=
  C7_amended_static_ignored _ ⟨[⟨.str "T", []⟩], [], []⟩ rfl rfl

/-- C8: neither parsing nor the two accessors mutate the tab specification.
In the state-passing embedding — which records every attribute write the
source can perform, including the in-place `append` of `add_tabbed_item` when
the local base still aliases a list-typed `fieldsets` / `inlines` attribute —
the parse returns the state unchanged, and both accessors leave the `tabs`
attribute (and thus the specification object) exactly as it was on every
successful run. -/
theorem C8_tabs_never_mutated (st : AdminState) :
    (∀ f st2, parseS st = .ok (f, st2) → st2 = st) ∧
    (∀ v st2, get_fieldsetsS st = .ok (v, st2) → st2.tabs = st.tabs) ∧
    (∀ v st2, get_inlinesS st = .ok (v, st2) → st2.tabs = st.tabs) := by
  refine ⟨?_, ?_, ?_⟩
  · intro f st2 h
    unfold parseS at h
    cases hp : parse_fieldsets_inlines_from_tabs st.tabs with
    | error e => rw [hp] at h; exact absurd h (by simp)
    | ok f2 => rw [hp] at h; simp at h; exact h.2.symm
  · intro v st2 h
    unfold get_fieldsetsS at h
    split at h
    · exact absurd h (by simp)
    · split at h
      · exact absurd h (by simp)
      · split at h
        · exact absurd h (by simp)
        · split at h
          · simp at h; rw [← h.2]
          · simp at h; rw [← h.2]
  · intro v st2 h
    unfold get_inlinesS at h
    split at h
    · exact absurd h (by simp)
    · split at h
      · exact absurd h (by simp)
      · split at h
        · exact absurd h (by simp)
        · split at h
          · simp at h; rw [← h.2]
          · simp at h; rw [← h.2]

/-- C8 witness: the frame theorem exercised on `exampleState`, whose parse and
accessor runs all succeed. -/
theorem C8_tabs_never_mutated_witness :
    parseS exampleState
      = .ok (⟨[⟨.str "T", [⟨.inline, .str "AuthorInline", Option.none⟩]⟩], [],
              [.named "AuthorInline" 4]⟩, exampleState) ∧
    exampleState = exampleState ∧
    AdminState.tabs exampleState = AdminState.tabs exampleState :=
  ⟨rfl,
   (C8_tabs_never_mutated exampleState).1
     ⟨[⟨.str "T", [⟨.inline, .str "AuthorInline", Option.none⟩]⟩], [],
      [.named "AuthorInline" 4]⟩ exampleState rfl,
   (C8_tabs_never_mutated exampleState).2.2 (.tup [.named "AuthorInline" 4])
     exampleState rfl⟩

end TabbedAdmin
